import Mathlib

/-!
Shallow embedding of the rhythm-backend analytics layer.

Source files embedded here:
- src/analytics/metrics_calculator.py  (MetricsCalculator)
- src/analytics/analytics_service.py   (metrics-facade AnalyticsService)
- src/services/analytics_service.py    (aggregator-registry AnalyticsService)
- src/services/aggregators/user_aggregator.py  (UserAggregator)
- src/services/aggregators/event_aggregator.py (EventAggregator)
- src/services/dashboard_service.py    (DashboardService)

Modelling choices:
- Python values that appear as record fields and dictionary keys are the
  inductive `Value`: `none` (Python None / absent field looked up with
  `dict.get`), `int` and `str`.  CPython's `bool` is a subtype of `int`
  with `True == 1`, `False == 0`, identical truthiness and identical
  behaviour as a dictionary key, so Python booleans are embedded as
  `Value.int 1` / `Value.int 0`; this keeps `==`-equality of keys
  structural.
- A Python `dict` is an insertion-ordered association list `Dict K V`
  with unique keys; `dictSet` is item assignment (an existing key keeps
  its position, a fresh key is appended), `dictUpdate` is `dict.update`,
  `dictGet?` is lookup.
- A record (event or user) is a structure whose optional fields default
  to `Value.none`, matching `record.get(field)` returning None for a
  missing key.
- A call `aggregator.collect()` either raises (`CollectResult.err`),
  returns a dictionary (`CollectResult.dict d`), or returns a value that
  is not a dictionary (`CollectResult.nonDict`); the registry service
  branches on exactly these three outcomes.
- Methods that mutate `self` are state transformers returning the new
  state; `gather_metrics` is given with explicit state threading
  (`gather_metricsS`) so that its frame property is a statement, not a
  convention.
-/

/-- Python runtime values occurring in this program: None, ints (Python
booleans are the ints 1 and 0) and strings. -/
inductive Value : Type where
  | none : Value
  | int (n : Int) : Value
  | str (s : String) : Value
deriving DecidableEq, Repr

/-- Python truthiness: None is falsy, an int is truthy iff nonzero
(so False = 0 is falsy, True = 1 is truthy), a string is truthy iff
nonempty. -/
def Value.truthy : Value → Bool
  | .none => false
  | .int n => n != 0
  | .str s => s != ""

/-- Python `True` (the int 1 in CPython's data model). -/
def Value.pyTrue : Value := .int 1

/-- Python `False` (the int 0 in CPython's data model). -/
def Value.pyFalse : Value := .int 0

/-- A Python dict: an insertion-ordered association list with unique keys. -/
abbrev Dict (K V : Type) : Type := List (K × V)

/-- Dictionary lookup `d.get(k)`: the value stored at the first (unique)
occurrence of the key, if any. -/
def dictGet? {K V : Type} [DecidableEq K] : Dict K V → K → Option V
  | [], _ => Option.none
  | (k', v) :: rest, k => if k = k' then some v else dictGet? rest k

/-- Item assignment `d[k] = v`: an existing key keeps its position and gets
the new value, a fresh key is appended at the end (CPython insertion
order). -/
def dictSet {K V : Type} [DecidableEq K] : Dict K V → K → V → Dict K V
  | [], k, v => [(k, v)]
  | (k', v') :: rest, k, v =>
      if k = k' then (k', v) :: rest else (k', v') :: dictSet rest k v

/-- `d.update(other)`: assign every entry of `other` into `d`, in order. -/
def dictUpdate {K V : Type} [DecidableEq K] (d other : Dict K V) : Dict K V :=
  other.foldl (fun acc kv => dictSet acc kv.1 kv.2) d

/-- The keys of a dictionary, in order. -/
def dictKeys {K V : Type} (d : Dict K V) : List K := d.map Prod.fst

/-- The value at the LAST occurrence of a key (what repeatedly assigning
the entries of an association list leaves behind). -/
def dictLastGet? {K V : Type} [DecidableEq K] : Dict K V → K → Option V
  | [], _ => Option.none
  | (k', v) :: rest, k =>
      match dictLastGet? rest k with
      | some w => some w
      | Option.none => if k = k' then some v else Option.none

/-- Sum of the (integer) values of a dictionary. -/
def dictValuesSum {K : Type} (d : Dict K Int) : Int := (d.map Prod.snd).sum

theorem dictKeys_nil {K V : Type} : dictKeys ([] : Dict K V) = [] := rfl

theorem dictKeys_cons {K V : Type} (p : K × V) (d : Dict K V) :
    dictKeys (p :: d) = p.1 :: dictKeys d := rfl

section DictLemmas

variable {K V : Type} [DecidableEq K]

theorem dictGet?_dictSet (d : Dict K V) (k k' : K) (v : V) :
    dictGet? (dictSet d k v) k' = if k' = k then some v else dictGet? d k' := by
  induction d with
  | nil => simp [dictSet, dictGet?]
  | cons p rest ih =>
      obtain ⟨a, b⟩ := p
      by_cases hka : k = a
      · subst hka
        simp only [dictSet, if_pos rfl, dictGet?]
        by_cases h : k' = k <;> simp [h]
      · simp only [dictSet, if_neg hka, dictGet?, ih]
        by_cases hk'a : k' = a
        · subst hk'a
          simp [Ne.symm hka]
        · simp [hk'a]

theorem dictKeys_dictSet (d : Dict K V) (k : K) (v : V) :
    dictKeys (dictSet d k v) =
      if k ∈ dictKeys d then dictKeys d else dictKeys d ++ [k] := by
  induction d with
  | nil => simp [dictSet, dictKeys]
  | cons p rest ih =>
      obtain ⟨a, b⟩ := p
      by_cases hka : k = a
      · subst hka
        simp [dictSet, dictKeys_cons]
      · simp only [dictSet, if_neg hka, dictKeys_cons, ih]
        by_cases hmem : k ∈ dictKeys rest
        · simp [List.mem_cons, hka, hmem]
        · simp [List.mem_cons, hka, hmem]

theorem dictGet?_eq_none_iff (d : Dict K V) (k : K) :
    dictGet? d k = Option.none ↔ k ∉ dictKeys d := by
  induction d with
  | nil => simp [dictGet?, dictKeys]
  | cons p rest ih =>
      obtain ⟨a, b⟩ := p
      by_cases hka : k = a
      · subst hka
        simp [dictGet?, dictKeys_cons]
      · simp [dictGet?, dictKeys_cons, hka, ih]

theorem dictLastGet?_eq_none_iff (d : Dict K V) (k : K) :
    dictLastGet? d k = Option.none ↔ k ∉ dictKeys d := by
  induction d with
  | nil => simp [dictLastGet?, dictKeys]
  | cons p rest ih =>
      obtain ⟨a, b⟩ := p
      simp only [dictLastGet?, dictKeys_cons, List.mem_cons]
      cases hrest : dictLastGet? rest k with
      | some w =>
          have hk : k ∈ dictKeys rest := by
            by_contra hm
            rw [ih.mpr hm] at hrest
            cases hrest
          simp [hk]
      | none =>
          have hnot := ih.mp hrest
          by_cases hka : k = a
          · simp [hka, hnot]
          · simp [hka, hnot]

theorem dictGet?_mem_keys {d : Dict K V} {k : K} {v : V}
    (h : dictGet? d k = some v) : k ∈ dictKeys d := by
  by_contra hmem
  rw [(dictGet?_eq_none_iff d k).mpr hmem] at h
  cases h

theorem dictGet?_dictUpdate (m d : Dict K V) (k : K) :
    dictGet? (dictUpdate m d) k =
      match dictLastGet? d k with
      | some w => some w
      | Option.none => dictGet? m k := by
  induction d generalizing m with
  | nil => simp [dictUpdate, dictLastGet?]
  | cons p rest ih =>
      obtain ⟨a, b⟩ := p
      have hstep : dictUpdate m ((a, b) :: rest) = dictUpdate (dictSet m a b) rest := by
        simp [dictUpdate]
      rw [hstep, ih]
      cases hrest : dictLastGet? rest k with
      | some w => simp [dictLastGet?, hrest]
      | none =>
          simp only [dictLastGet?, hrest, dictGet?_dictSet]
          by_cases hka : k = a
          · simp [hka]
          · simp [hka]

theorem dictLastGet?_of_nodup {d : Dict K V} (hnd : (dictKeys d).Nodup) (k : K) :
    dictLastGet? d k = dictGet? d k := by
  induction d with
  | nil => rfl
  | cons p rest ih =>
      obtain ⟨a, b⟩ := p
      simp only [dictKeys_cons, List.nodup_cons] at hnd
      obtain ⟨hna, hnd'⟩ := hnd
      simp only [dictLastGet?, dictGet?, ih hnd']
      by_cases hka : k = a
      · subst hka
        rw [(dictGet?_eq_none_iff rest k).mpr hna]
      · cases hr : dictGet? rest k <;> simp [hka]

theorem dictSet_of_fresh {d : Dict K V} {k : K} (hmem : k ∉ dictKeys d) (v : V) :
    dictSet d k v = d ++ [(k, v)] := by
  induction d with
  | nil => simp [dictSet]
  | cons p rest ih =>
      obtain ⟨a, b⟩ := p
      simp only [dictKeys, List.map_cons, List.mem_cons] at hmem
      push_neg at hmem
      simp [dictSet, hmem.1, ih hmem.2]

theorem dictValuesSum_dictSet_existing {K : Type} [DecidableEq K]
    {d : Dict K Int} {k : K} {v : Int} (h : dictGet? d k = some v) (w : Int) :
    dictValuesSum (dictSet d k w) = dictValuesSum d - v + w := by
  induction d with
  | nil => simp [dictGet?] at h
  | cons p rest ih =>
      obtain ⟨a, b⟩ := p
      by_cases hka : k = a
      · subst hka
        have hb : b = v := by simpa [dictGet?] using h
        subst hb
        have hset : dictSet ((k, b) :: rest) k w = (k, w) :: rest := by
          simp [dictSet]
        rw [hset]
        simp only [dictValuesSum, List.map_cons, List.sum_cons]
        ring
      · simp only [dictGet?, if_neg hka] at h
        simp only [dictSet, if_neg hka, dictValuesSum, List.map_cons, List.sum_cons]
        have hih := ih h
        simp only [dictValuesSum] at hih
        rw [hih]
        ring

end DictLemmas

/-- The Python idiom `list(xs) if xs else []`: a missing argument or an
empty (falsy) sequence yields a fresh empty list, anything else a copy. -/
def listOrEmpty {α : Type} : Option (List α) → List α
  | some l => if l.isEmpty then [] else l
  | Option.none => []

theorem listOrEmpty_some {α : Type} (l : List α) : listOrEmpty (some l) = l := by
  cases l <;> simp [listOrEmpty]

/-- An event record: `type` and `conflict` are looked up with
`event.get(...)`, so an absent field is indistinguishable from the value
None and is embedded as `Value.none`. -/
structure Event : Type where
  type : Value := Value.none
  conflict : Value := Value.none
deriving DecidableEq, Repr

/-- A user record: `active` is looked up with `user.get('active')`, an
absent field is embedded as `Value.none`. -/
structure User : Type where
  active : Value := Value.none
deriving DecidableEq, Repr

namespace MetricsCalculator

/-- `MetricsCalculator.calculate_usage` (src/analytics/metrics_calculator.py):
for each event, `usage[event.get("type")] = usage.get(event.get("type"), 0) + 1`. -/
def calculate_usage (events : List Event) : Dict Value Int :=
  events.foldl
    (fun usage event =>
      dictSet usage event.type ((dictGet? usage event.type).getD 0 + 1))
    []

/-- `MetricsCalculator.calculate_conflicts` (src/analytics/metrics_calculator.py):
for each event, if `event.get("conflict")` is truthy, increment the counter
keyed by that conflict value; otherwise skip the event. -/
def calculate_conflicts (events : List Event) : Dict Value Int :=
  events.foldl
    (fun conflicts event =>
      if event.conflict.truthy then
        dictSet conflicts event.conflict
          ((dictGet? conflicts event.conflict).getD 0 + 1)
      else conflicts)
    []

end MetricsCalculator

/-- One counting pass: for each element, increment the counter keyed by
`f` of the element (the loop body shared by `calculate_usage` and, after
filtering, `calculate_conflicts`). -/
def tally (f : Event → Value) (events : List Event) (u : Dict Value Int) : Dict Value Int :=
  events.foldl
    (fun d e => dictSet d (f e) ((dictGet? d (f e)).getD 0 + 1))
    u

theorem tally_nil (f : Event → Value) (u : Dict Value Int) : tally f [] u = u := rfl

theorem tally_cons (f : Event → Value) (e : Event) (es : List Event) (u : Dict Value Int) :
    tally f (e :: es) u = tally f es (dictSet u (f e) ((dictGet? u (f e)).getD 0 + 1)) := rfl

theorem calculate_usage_eq_tally (events : List Event) :
    MetricsCalculator.calculate_usage events = tally Event.type events [] := rfl

theorem calculate_conflicts_loop_eq (es : List Event) (u : Dict Value Int) :
    es.foldl
      (fun conflicts event =>
        if event.conflict.truthy then
          dictSet conflicts event.conflict
            ((dictGet? conflicts event.conflict).getD 0 + 1)
        else conflicts)
      u
      = tally Event.conflict (es.filter (fun e => e.conflict.truthy)) u := by
  induction es generalizing u with
  | nil => rfl
  | cons e es ih =>
      by_cases ht : e.conflict.truthy
      · simp only [List.foldl_cons, List.filter_cons, ht, if_pos, tally_cons]
        exact ih _
      · simp only [List.foldl_cons, List.filter_cons, ht, if_neg, Bool.false_eq_true]
        simpa using ih u

theorem calculate_conflicts_eq_tally (events : List Event) :
    MetricsCalculator.calculate_conflicts events =
      tally Event.conflict (events.filter (fun e => e.conflict.truthy)) [] :=
  calculate_conflicts_loop_eq events []

theorem tally_get (f : Event → Value) (events : List Event) (u : Dict Value Int) (k : Value) :
    dictGet? (tally f events u) k =
      match dictGet? u k with
      | some v => some (v + (events.countP (fun e => decide (f e = k)) : Int))
      | Option.none =>
          if events.countP (fun e => decide (f e = k)) = 0 then Option.none
          else some ((events.countP (fun e => decide (f e = k)) : Int)) := by
  induction events generalizing u with
  | nil => cases h : dictGet? u k <;> simp [tally_nil, h]
  | cons e es ih =>
      rw [tally_cons, ih, dictGet?_dictSet]
      by_cases hk : k = f e
      · subst hk
        rw [if_pos rfl]
        have hcnt : List.countP (fun e' => decide (f e' = f e)) (e :: es)
            = List.countP (fun e' => decide (f e' = f e)) es + 1 := by
          simp [List.countP_cons]
        rw [hcnt]
        cases h : dictGet? u (f e) with
        | some v =>
            simp only [Option.getD_some, Option.some.injEq]
            push_cast
            ring
        | none =>
            simp only [Option.getD_none]
            rw [if_neg (by omega :
              ¬ (List.countP (fun e' => decide (f e' = f e)) es + 1 = 0))]
            simp only [Option.some.injEq]
            push_cast
            ring
      · have hne : (decide (f e = k)) = false :=
          decide_eq_false (fun h => hk h.symm)
        rw [if_neg hk]
        have hcnt : List.countP (fun e' => decide (f e' = k)) (e :: es)
            = List.countP (fun e' => decide (f e' = k)) es := by
          simp [List.countP_cons, hne]
        rw [hcnt]

theorem tally_sum (f : Event → Value) (events : List Event) (u : Dict Value Int) :
    dictValuesSum (tally f events u) = dictValuesSum u + events.length := by
  induction events generalizing u with
  | nil => simp [tally_nil]
  | cons e es ih =>
      rw [tally_cons, ih]
      cases h : dictGet? u (f e) with
      | some v =>
          rw [dictValuesSum_dictSet_existing h]
          simp only [Option.getD_some, List.length_cons]
          push_cast
          ring
      | none =>
          rw [dictSet_of_fresh ((dictGet?_eq_none_iff u (f e)).mp h)]
          simp only [dictValuesSum, List.map_append, List.sum_append, List.map_cons,
            List.sum_cons, List.map_nil, List.sum_nil, List.length_cons,
            Option.getD_none]
          push_cast
          ring

theorem tally_keys_nodup (f : Event → Value) (events : List Event) (u : Dict Value Int)
    (hnd : (dictKeys u).Nodup) : (dictKeys (tally f events u)).Nodup := by
  induction events generalizing u with
  | nil => exact hnd
  | cons e es ih =>
      rw [tally_cons]
      refine ih _ ?_
      rw [dictKeys_dictSet]
      by_cases hmem : f e ∈ dictKeys u
      · simpa [hmem] using hnd
      · simp [hmem, List.nodup_append, hnd]

theorem tally_mem_keys (f : Event → Value) (events : List Event) (k : Value) :
    k ∈ dictKeys (tally f events []) ↔ ∃ e ∈ events, f e = k := by
  have hget := tally_get f events [] k
  have hnone : dictGet? ([] : Dict Value Int) k = Option.none := rfl
  rw [hnone] at hget
  constructor
  · intro hmem
    by_contra hno
    have hcnt : events.countP (fun e => decide (f e = k)) = 0 := by
      rw [List.countP_eq_zero]
      intro e he
      simp only [decide_eq_true_eq]
      exact fun heq => hno ⟨e, he, heq⟩
    rw [hcnt] at hget
    simp only [if_pos rfl] at hget
    exact absurd ((dictGet?_eq_none_iff _ k).mp hget) (fun h => h hmem)
  · intro ⟨e, he, heq⟩
    have hcnt : 0 < events.countP (fun e' => decide (f e' = k)) :=
      List.countP_pos_iff.mpr ⟨e, he, by simp [heq]⟩
    have hne : events.countP (fun e' => decide (f e' = k)) ≠ 0 := by omega
    rw [if_neg hne] at hget
    by_contra hmem
    rw [(dictGet?_eq_none_iff _ k).mpr hmem] at hget
    cases hget

namespace Analytics

/-- The metrics-facade `AnalyticsService` (src/analytics/analytics_service.py):
it holds a calculator (by default a fresh `MetricsCalculator`, which is
stateless) and delegates to it. -/
structure AnalyticsService : Type where
  calculator : Unit := ()
deriving DecidableEq, Repr

/-- `AnalyticsService.get_usage_stats`: delegates to
`MetricsCalculator.calculate_usage`. -/
def AnalyticsService.get_usage_stats (_s : AnalyticsService) (events : List Event) :
    Dict Value Int :=
  MetricsCalculator.calculate_usage events

/-- `AnalyticsService.get_conflict_report`: delegates to
`MetricsCalculator.calculate_conflicts`. -/
def AnalyticsService.get_conflict_report (_s : AnalyticsService) (events : List Event) :
    Dict Value Int :=
  MetricsCalculator.calculate_conflicts events

end Analytics

/-- `UserAggregator` (src/services/aggregators/user_aggregator.py): wraps
a user list fixed at construction. -/
structure UserAggregator : Type where
  users : List User
deriving DecidableEq, Repr

/-- `UserAggregator.__init__`: `self.users = list(users) if users else []`. -/
def UserAggregator.init (users : Option (List User)) : UserAggregator :=
  ⟨listOrEmpty users⟩

/-- `UserAggregator.collect`: total count and count of users whose
`active` field is truthy (`u.get('active')` in a comprehension filter). -/
def UserAggregator.collect (a : UserAggregator) : Dict Value Value :=
  [(Value.str "total_users", Value.int a.users.length),
   (Value.str "active_users", Value.int (a.users.filter (fun u => u.active.truthy)).length)]

/-- `EventAggregator` (src/services/aggregators/event_aggregator.py): wraps
an event list fixed at construction. -/
structure EventAggregator : Type where
  events : List Event
deriving DecidableEq, Repr

/-- `EventAggregator.__init__`: `self.events = list(events) if events else []`. -/
def EventAggregator.init (events : Option (List Event)) : EventAggregator :=
  ⟨listOrEmpty events⟩

/-- `EventAggregator.collect`: the stored sequence length under the key
`total_events`. -/
def EventAggregator.collect (a : EventAggregator) : Dict Value Value :=
  [(Value.str "total_events", Value.int a.events.length)]

/-- The outcome of a Python call `aggregator.collect()` as the registry
service observes it: it returns a dict, returns a non-dict value, or
raises an exception. -/
inductive CollectResult : Type where
  | dict (d : Dict Value Value) : CollectResult
  | nonDict : CollectResult
  | err : CollectResult
deriving DecidableEq, Repr

/-- A registered aggregator: one of the repository's two concrete
aggregator classes, or any other object (`foreign`) with an arbitrary
class name and an arbitrary `collect()` behaviour, as the duck-typed
registry admits. -/
inductive Aggregator : Type where
  | user (a : UserAggregator) : Aggregator
  | event (a : EventAggregator) : Aggregator
  | foreign (className : String) (result : CollectResult) : Aggregator
deriving DecidableEq, Repr

/-- The observed outcome of calling `collect()` on an aggregator; the two
concrete classes always return their dict. -/
def Aggregator.collect : Aggregator → CollectResult
  | .user a => .dict a.collect
  | .event a => .dict a.collect
  | .foreign _ r => r

/-- `aggregator.__class__.__name__`. -/
def Aggregator.className : Aggregator → String
  | .user _ => "UserAggregator"
  | .event _ => "EventAggregator"
  | .foreign n _ => n

/-- The dict an aggregator's `collect()` returns, when it returns one. -/
def dictOf (aggregator : Aggregator) : Dict Value Value :=
  match aggregator.collect with
  | .dict d => d
  | .nonDict => []
  | .err => []

namespace Services

/-- The aggregator-registry `AnalyticsService`
(src/services/analytics_service.py): its state is the list of registered
aggregators. -/
structure AnalyticsService : Type where
  aggregators : List Aggregator
deriving DecidableEq, Repr

/-- `AnalyticsService.__init__`:
`self.aggregators = list(aggregators) if aggregators else []`. -/
def AnalyticsService.init (aggregators : Option (List Aggregator)) : AnalyticsService :=
  ⟨listOrEmpty aggregators⟩

/-- `AnalyticsService.register_aggregator`: `self.aggregators.append(aggregator)`. -/
def AnalyticsService.register_aggregator (s : AnalyticsService) (aggregator : Aggregator) :
    AnalyticsService :=
  { s with aggregators := s.aggregators ++ [aggregator] }

/-- `AnalyticsService.gather_metrics` with explicit state threading: the
loop body updates the local `metrics` dict when `collect()` returns a
dict, skips a non-dict result (`isinstance` test fails) and swallows an
exception (`except Exception: pass`); `self` is carried through the loop
unchanged and returned alongside the result. -/
def AnalyticsService.gather_metricsS (s : AnalyticsService) :
    Dict Value Value × AnalyticsService :=
  s.aggregators.foldl
    (fun acc aggregator =>
      match aggregator.collect with
      | .dict data => (dictUpdate acc.1 data, acc.2)
      | .nonDict => acc
      | .err => acc)
    ([], s)

/-- The value `gather_metrics` returns. -/
def AnalyticsService.gather_metrics (s : AnalyticsService) : Dict Value Value :=
  (s.gather_metricsS).1

end Services

/-- One iteration of the `gather_metrics` loop, acting on the local
`metrics` accumulator only. -/
def mergeStep (metrics : Dict Value Value) (aggregator : Aggregator) : Dict Value Value :=
  match aggregator.collect with
  | .dict data => dictUpdate metrics data
  | .nonDict => metrics
  | .err => metrics

namespace Services

theorem foldl_mergeStep_pair (l : List Aggregator) (m : Dict Value Value)
    (t : AnalyticsService) :
    l.foldl
      (fun acc aggregator =>
        match aggregator.collect with
        | .dict data => (dictUpdate acc.1 data, acc.2)
        | .nonDict => acc
        | .err => acc)
      (m, t)
    = (l.foldl mergeStep m, t) := by
  induction l generalizing m with
  | nil => rfl
  | cons a l ih =>
      cases h : a.collect <;>
        simp only [List.foldl_cons, h, mergeStep] <;> exact ih _

theorem gather_metricsS_eq (s : AnalyticsService) :
    s.gather_metricsS = (s.aggregators.foldl mergeStep [], s) :=
  foldl_mergeStep_pair s.aggregators [] s

theorem gather_metrics_eq_foldl (s : AnalyticsService) :
    s.gather_metrics = s.aggregators.foldl mergeStep [] := by
  rw [AnalyticsService.gather_metrics, gather_metricsS_eq]

/-- `DashboardService` (src/services/dashboard_service.py): it keeps the
(possibly mutated) analytics service and its own local aggregator list. -/
structure DashboardService : Type where
  analytics_service : AnalyticsService
  aggregators : List Aggregator
deriving DecidableEq, Repr

/-- `DashboardService.__init__`: copy the supplied aggregators (or `[]`),
then register each of them, in order, into the given analytics service;
the structure returned holds the service as it stands after these
registrations (in Python the same mutated object). -/
def DashboardService.init (analytics_service : AnalyticsService)
    (aggregators : Option (List Aggregator)) : DashboardService :=
  { analytics_service :=
      (listOrEmpty aggregators).foldl AnalyticsService.register_aggregator analytics_service
    aggregators := listOrEmpty aggregators }

/-- `DashboardService.get_summary_metrics`: delegates to
`analytics_service.gather_metrics()`. -/
def DashboardService.get_summary_metrics (d : DashboardService) : Dict Value Value :=
  d.analytics_service.gather_metrics

/-- `DashboardService.get_user_metrics`: first aggregator of the local
list whose class name is `'UserAggregator'`, else `{}`; the result of its
`collect()` call (which would propagate an exception) is returned as is. -/
def DashboardService.get_user_metrics (d : DashboardService) : CollectResult :=
  match d.aggregators.find? (fun agg => agg.className == "UserAggregator") with
  | some agg => agg.collect
  | Option.none => .dict []

/-- `DashboardService.get_event_metrics`: same lookup for
`'EventAggregator'`. -/
def DashboardService.get_event_metrics (d : DashboardService) : CollectResult :=
  match d.aggregators.find? (fun agg => agg.className == "EventAggregator") with
  | some agg => agg.collect
  | Option.none => .dict []

theorem foldl_register (l : List Aggregator) (s : AnalyticsService) :
    l.foldl AnalyticsService.register_aggregator s = ⟨s.aggregators ++ l⟩ := by
  induction l generalizing s with
  | nil => simp
  | cons a l ih =>
      rw [List.foldl_cons, ih]
      simp [AnalyticsService.register_aggregator]

end Services

theorem dictGet?_dictUpdate_of_some {K V : Type} [DecidableEq K]
    {m d : Dict K V} {k : K} {v : V}
    (hnd : (dictKeys d).Nodup) (h : dictGet? d k = some v) :
    dictGet? (dictUpdate m d) k = some v := by
  rw [dictGet?_dictUpdate, dictLastGet?_of_nodup hnd, h]

theorem dictGet?_dictUpdate_of_none {K V : Type} [DecidableEq K]
    {m d : Dict K V} {k : K} (h : dictGet? d k = Option.none) :
    dictGet? (dictUpdate m d) k = dictGet? m k := by
  rw [dictGet?_dictUpdate,
    (dictLastGet?_eq_none_iff d k).mpr ((dictGet?_eq_none_iff d k).mp h)]

namespace Services

theorem gather_metrics_snoc (aggs : List Aggregator) (a : Aggregator) :
    AnalyticsService.gather_metrics ⟨aggs ++ [a]⟩
      = mergeStep (AnalyticsService.gather_metrics ⟨aggs⟩) a := by
  rw [gather_metrics_eq_foldl, gather_metrics_eq_foldl]
  simp [List.foldl_append]

theorem gather_metrics_drop (pre post : List Aggregator) (a : Aggregator)
    (h : ∀ m, mergeStep m a = m) :
    AnalyticsService.gather_metrics ⟨pre ++ a :: post⟩
      = AnalyticsService.gather_metrics ⟨pre ++ post⟩ := by
  rw [gather_metrics_eq_foldl, gather_metrics_eq_foldl]
  simp only [List.foldl_append, List.foldl_cons, h]

theorem gather_metrics_disjoint_union :
    ∀ (aggs : List Aggregator),
      (∀ a ∈ aggs, ∃ d, a.collect = CollectResult.dict d) →
      (∀ a ∈ aggs, (dictKeys (dictOf a)).Nodup) →
      List.Pairwise
        (fun a b => ∀ k, k ∈ dictKeys (dictOf a) → k ∉ dictKeys (dictOf b)) aggs →
      ∀ (k v : Value),
        dictGet? (AnalyticsService.gather_metrics ⟨aggs⟩) k = some v ↔
          ∃ a ∈ aggs, dictGet? (dictOf a) k = some v := by
  intro aggs
  induction aggs using List.reverseRecOn with
  | nil =>
      intro _ _ _ k v
      constructor
      · intro h
        rw [show AnalyticsService.gather_metrics ⟨[]⟩ = [] from rfl] at h
        cases h
      · rintro ⟨a, ha, -⟩
        cases ha
  | append_singleton l b ih =>
      intro hdict hnd hdisj k v
      obtain ⟨db, hdb⟩ := hdict b (by simp)
      have hdictl : ∀ a ∈ l, ∃ d, a.collect = CollectResult.dict d :=
        fun a ha => hdict a (by simp [ha])
      have hndl : ∀ a ∈ l, (dictKeys (dictOf a)).Nodup :=
        fun a ha => hnd a (by simp [ha])
      rw [List.pairwise_append] at hdisj
      obtain ⟨hdisjl, -, hcross⟩ := hdisj
      have hgather : AnalyticsService.gather_metrics ⟨l ++ [b]⟩
          = dictUpdate (AnalyticsService.gather_metrics ⟨l⟩) (dictOf b) := by
        rw [gather_metrics_snoc]
        simp [mergeStep, dictOf, hdb]
      rw [hgather]
      cases hb : dictGet? (dictOf b) k with
      | some w =>
          rw [dictGet?_dictUpdate_of_some (hnd b (by simp)) hb]
          constructor
          · intro h
            exact ⟨b, by simp, by rw [hb, h]⟩
          · rintro ⟨a, ha, hav⟩
            rcases List.mem_append.mp ha with hal | hab
            · have hk_in_a := dictGet?_mem_keys hav
              have hnot := hcross a hal b (List.mem_singleton.mpr rfl) k hk_in_a
              exact absurd (dictGet?_mem_keys hb) hnot
            · have heq : a = b := List.mem_singleton.mp hab
              subst heq
              rw [hav] at hb
              exact hb.symm
      | none =>
          rw [dictGet?_dictUpdate_of_none hb,
            ih hdictl hndl hdisjl k v]
          constructor
          · rintro ⟨a, hal, hav⟩
            exact ⟨a, by simp [hal], hav⟩
          · rintro ⟨a, ha, hav⟩
            rcases List.mem_append.mp ha with hal | hab
            · exact ⟨a, hal, hav⟩
            · have heq : a = b := List.mem_singleton.mp hab
              subst heq
              rw [hb] at hav
              cases hav

end Services

/-- C1: for every registry AnalyticsService, if a registered aggregator's
`collect()` raises, `gather_metrics()` silently discards that aggregator's
contribution and continues with the rest: the (total, never-failing)
result equals what `gather_metrics()` returns with the failing aggregator
absent from the registry. -/
theorem C1_gather_metrics_discards_failing_aggregator
    (pre post : List Aggregator) (a : Aggregator)
    (herr : a.collect = CollectResult.err) :
    Services.AnalyticsService.gather_metrics ⟨pre ++ a :: post⟩
      = Services.AnalyticsService.gather_metrics ⟨pre ++ post⟩ :=
  Services.gather_metrics_drop pre post a (fun m => by simp [mergeStep, herr])

/-- Witness for C1: a registry holding an EventAggregator and a raising
foreign aggregator yields the same metrics as the registry without the
raising one. -/
theorem C1_witness :
    Services.AnalyticsService.gather_metrics
        ⟨[Aggregator.event ⟨[]⟩, Aggregator.foreign "Broken" CollectResult.err]⟩
      = Services.AnalyticsService.gather_metrics ⟨[Aggregator.event ⟨[]⟩]⟩ :=
  C1_gather_metrics_discards_failing_aggregator [Aggregator.event ⟨[]⟩] []
    (Aggregator.foreign "Broken" CollectResult.err) rfl

/-- C2: `gather_metrics()` iterates the registry in registration order
(empty registry gives `{}` and appending an aggregator post-composes one
merge step), a non-mapping `collect()` result contributes nothing, on key
collision the later dict's value overwrites the earlier accumulator entry
(and absent keys are read from the accumulator), and for aggregators
returning dicts with pairwise-disjoint keys the result is exactly the
union of all their outputs. -/
theorem C2_gather_metrics_merge_semantics :
    (Services.AnalyticsService.gather_metrics ⟨[]⟩ = []) ∧
    (∀ (aggs : List Aggregator) (a : Aggregator),
        Services.AnalyticsService.gather_metrics ⟨aggs ++ [a]⟩
          = mergeStep (Services.AnalyticsService.gather_metrics ⟨aggs⟩) a) ∧
    (∀ (pre post : List Aggregator) (a : Aggregator),
        a.collect = CollectResult.nonDict →
        Services.AnalyticsService.gather_metrics ⟨pre ++ a :: post⟩
          = Services.AnalyticsService.gather_metrics ⟨pre ++ post⟩) ∧
    (∀ (m d : Dict Value Value) (k v : Value),
        (dictKeys d).Nodup → dictGet? d k = some v →
        dictGet? (dictUpdate m d) k = some v) ∧
    (∀ (m d : Dict Value Value) (k : Value),
        dictGet? d k = Option.none →
        dictGet? (dictUpdate m d) k = dictGet? m k) ∧
    (∀ (aggs : List Aggregator),
        (∀ a ∈ aggs, ∃ d, a.collect = CollectResult.dict d) →
        (∀ a ∈ aggs, (dictKeys (dictOf a)).Nodup) →
        List.Pairwise
          (fun a b => ∀ k, k ∈ dictKeys (dictOf a) → k ∉ dictKeys (dictOf b)) aggs →
        ∀ (k v : Value),
          dictGet? (Services.AnalyticsService.gather_metrics ⟨aggs⟩) k = some v ↔
            ∃ a ∈ aggs, dictGet? (dictOf a) k = some v) :=
  ⟨rfl,
   Services.gather_metrics_snoc,
   fun pre post a hnd =>
     Services.gather_metrics_drop pre post a (fun m => by simp [mergeStep, hnd]),
   fun _ _ _ _ hnd h => dictGet?_dictUpdate_of_some hnd h,
   fun _ _ _ h => dictGet?_dictUpdate_of_none h,
   Services.gather_metrics_disjoint_union⟩

/-- Witness for C2: on a concrete registry (a UserAggregator with one
active user, then an EventAggregator with no events) the merged metrics
contain the event aggregator's disjoint key. -/
theorem C2_witness :
    dictGet? (Services.AnalyticsService.gather_metrics
        ⟨[Aggregator.user ⟨[⟨Value.pyTrue⟩]⟩, Aggregator.event ⟨[]⟩]⟩)
        (Value.str "total_events")
      = some (Value.int 0) := by
  have h := C2_gather_metrics_merge_semantics.2.2.2.1
    (Services.AnalyticsService.gather_metrics ⟨[Aggregator.user ⟨[⟨Value.pyTrue⟩]⟩]⟩)
    (dictOf (Aggregator.event ⟨[]⟩)) (Value.str "total_events") (Value.int 0)
    (by decide) (by decide)
  have hsnoc := C2_gather_metrics_merge_semantics.2.1
    [Aggregator.user ⟨[⟨Value.pyTrue⟩]⟩] (Aggregator.event ⟨[]⟩)
  rw [show ([Aggregator.user ⟨[⟨Value.pyTrue⟩]⟩] ++ [Aggregator.event ⟨[]⟩])
      = [Aggregator.user ⟨[⟨Value.pyTrue⟩]⟩, Aggregator.event ⟨[]⟩] from rfl] at hsnoc
  rw [hsnoc]
  exact h

/-- C3: `calculate_usage` maps each distinct `type` value occurring in the
event list (with a missing `type` counted under the None key) to the
number of events of that type, has no other keys and no duplicate keys,
its counts sum to the number of events, and the empty list yields the
empty mapping. -/
theorem C3_calculate_usage_counts :
    (MetricsCalculator.calculate_usage [] = []) ∧
    (∀ (events : List Event) (k : Value),
        dictGet? (MetricsCalculator.calculate_usage events) k =
          (if events.countP (fun e => decide (e.type = k)) = 0 then Option.none
           else some ((events.countP (fun e => decide (e.type = k)) : Int)))) ∧
    (∀ events : List Event,
        dictValuesSum (MetricsCalculator.calculate_usage events) = events.length) ∧
    (∀ events : List Event,
        (dictKeys (MetricsCalculator.calculate_usage events)).Nodup) ∧
    (∀ (events : List Event) (k : Value),
        k ∈ dictKeys (MetricsCalculator.calculate_usage events) ↔
          k ∈ events.map Event.type) := by
  refine ⟨rfl, ?_, ?_, ?_, ?_⟩
  · intro events k
    rw [calculate_usage_eq_tally, tally_get]
    rfl
  · intro events
    rw [calculate_usage_eq_tally, tally_sum]
    simp [dictValuesSum]
  · intro events
    rw [calculate_usage_eq_tally]
    exact tally_keys_nodup _ _ _ (by simp [dictKeys])
  · intro events k
    rw [calculate_usage_eq_tally, tally_mem_keys]
    simp [List.mem_map]

/-- C4: `calculate_conflicts` counts, per conflict value, exactly the
events whose `conflict` field is truthy and equal to it; an event with a
falsy conflict (None/absent, empty string, 0, False) can be removed from
the list without changing the result, and no falsy value ever appears as
a key. -/
theorem C4_calculate_conflicts_truthy_only :
    (MetricsCalculator.calculate_conflicts [] = []) ∧
    (∀ (events : List Event) (k : Value),
        dictGet? (MetricsCalculator.calculate_conflicts events) k =
          (if events.countP (fun e => decide (e.conflict = k) && e.conflict.truthy) = 0
           then Option.none
           else some ((events.countP
              (fun e => decide (e.conflict = k) && e.conflict.truthy) : Int)))) ∧
    (∀ (pre post : List Event) (e : Event), e.conflict.truthy = false →
        MetricsCalculator.calculate_conflicts (pre ++ e :: post)
          = MetricsCalculator.calculate_conflicts (pre ++ post)) ∧
    (∀ (events : List Event) (k : Value), k.truthy = false →
        dictGet? (MetricsCalculator.calculate_conflicts events) k = Option.none) := by
  refine ⟨rfl, ?_, ?_, ?_⟩
  · intro events k
    rw [calculate_conflicts_eq_tally, tally_get, List.countP_filter]
    rfl
  · intro pre post e ht
    simp only [MetricsCalculator.calculate_conflicts, List.foldl_append,
      List.foldl_cons, ht, Bool.false_eq_true, if_neg]
    simp
  · intro events k hk
    rw [calculate_conflicts_eq_tally, tally_get]
    have hz : (events.filter (fun e => e.conflict.truthy)).countP
        (fun e => decide (e.conflict = k)) = 0 := by
      rw [List.countP_eq_zero]
      intro e he
      rw [List.mem_filter] at he
      simp only [decide_eq_true_eq]
      intro heq
      rw [heq, hk] at he
      exact absurd he.2 (by simp)
    rw [hz]
    rfl

/-- Witness for C4: on the sample events of the repository's test file,
a `"double"` conflict appears twice, the falsy `None` conflicts are
skipped, and dropping a falsy-conflict event changes nothing. -/
theorem C4_witness :
    MetricsCalculator.calculate_conflicts
        [⟨Value.str "play", Value.none⟩, ⟨Value.str "pause", Value.none⟩,
         ⟨Value.str "play", Value.str "double"⟩, ⟨Value.str "play", Value.str "double"⟩]
      = MetricsCalculator.calculate_conflicts
        [⟨Value.str "play", Value.none⟩,
         ⟨Value.str "play", Value.str "double"⟩, ⟨Value.str "play", Value.str "double"⟩]
      ∧
    dictGet? (MetricsCalculator.calculate_conflicts
        [⟨Value.str "play", Value.none⟩, ⟨Value.str "pause", Value.none⟩,
         ⟨Value.str "play", Value.str "double"⟩, ⟨Value.str "play", Value.str "double"⟩])
        (Value.str "double")
      = some (2 : Int) := by
  exact ⟨C4_calculate_conflicts_truthy_only.2.2.1
      [⟨Value.str "play", Value.none⟩] [⟨Value.str "play", Value.str "double"⟩,
        ⟨Value.str "play", Value.str "double"⟩] ⟨Value.str "pause", Value.none⟩ rfl,
    by decide⟩

/-- C5: `get_user_metrics()` scans the DashboardService's own locally-held
aggregator list (the one supplied at construction) in order and returns
`collect()` of the first aggregator whose class name is `UserAggregator`;
with no such aggregator it returns the empty mapping whatever the
underlying service's registry holds. `get_event_metrics()` does the same
for `EventAggregator`. -/
theorem C5_dashboard_kind_lookup :
    (∀ (svc : Services.AnalyticsService) (aggs : List Aggregator),
        (∀ a ∈ aggs, a.className ≠ "UserAggregator") →
        Services.DashboardService.get_user_metrics
            (Services.DashboardService.init svc (some aggs))
          = CollectResult.dict []) ∧
    (∀ (svc : Services.AnalyticsService) (pre post : List Aggregator) (a : Aggregator),
        a.className = "UserAggregator" →
        (∀ b ∈ pre, b.className ≠ "UserAggregator") →
        Services.DashboardService.get_user_metrics
            (Services.DashboardService.init svc (some (pre ++ a :: post)))
          = a.collect) ∧
    (∀ (svc : Services.AnalyticsService) (aggs : List Aggregator),
        (∀ a ∈ aggs, a.className ≠ "EventAggregator") →
        Services.DashboardService.get_event_metrics
            (Services.DashboardService.init svc (some aggs))
          = CollectResult.dict []) ∧
    (∀ (svc : Services.AnalyticsService) (pre post : List Aggregator) (a : Aggregator),
        a.className = "EventAggregator" →
        (∀ b ∈ pre, b.className ≠ "EventAggregator") →
        Services.DashboardService.get_event_metrics
            (Services.DashboardService.init svc (some (pre ++ a :: post)))
          = a.collect) := by
  refine ⟨?_, ?_, ?_, ?_⟩
  · intro svc aggs h
    have hagg : (Services.DashboardService.init svc (some aggs)).aggregators = aggs := by
      simp [Services.DashboardService.init, listOrEmpty_some]
    have hf : aggs.find? (fun agg => agg.className == "UserAggregator") = Option.none := by
      rw [List.find?_eq_none]
      intro x hx
      simp only [beq_iff_eq]
      exact h x hx
    simp only [Services.DashboardService.get_user_metrics, hagg, hf]
  · intro svc pre post a ha hpre
    have hagg : (Services.DashboardService.init svc (some (pre ++ a :: post))).aggregators
        = pre ++ a :: post := by
      simp [Services.DashboardService.init, listOrEmpty_some]
    have hfpre : pre.find? (fun agg => agg.className == "UserAggregator") = Option.none := by
      rw [List.find?_eq_none]
      intro x hx
      simp only [beq_iff_eq]
      exact hpre x hx
    have hf : (pre ++ a :: post).find? (fun agg => agg.className == "UserAggregator")
        = some a := by
      rw [List.find?_append, hfpre, List.find?_cons_of_pos _ (by simp [ha])]
      rfl
    simp only [Services.DashboardService.get_user_metrics, hagg, hf]
  · intro svc aggs h
    have hagg : (Services.DashboardService.init svc (some aggs)).aggregators = aggs := by
      simp [Services.DashboardService.init, listOrEmpty_some]
    have hf : aggs.find? (fun agg => agg.className == "EventAggregator") = Option.none := by
      rw [List.find?_eq_none]
      intro x hx
      simp only [beq_iff_eq]
      exact h x hx
    simp only [Services.DashboardService.get_event_metrics, hagg, hf]
  · intro svc pre post a ha hpre
    have hagg : (Services.DashboardService.init svc (some (pre ++ a :: post))).aggregators
        = pre ++ a :: post := by
      simp [Services.DashboardService.init, listOrEmpty_some]
    have hfpre : pre.find? (fun agg => agg.className == "EventAggregator") = Option.none := by
      rw [List.find?_eq_none]
      intro x hx
      simp only [beq_iff_eq]
      exact hpre x hx
    have hf : (pre ++ a :: post).find? (fun agg => agg.className == "EventAggregator")
        = some a := by
      rw [List.find?_append, hfpre, List.find?_cons_of_pos _ (by simp [ha])]
      rfl
    simp only [Services.DashboardService.get_event_metrics, hagg, hf]

/-- Witness for C5: with only an EventAggregator supplied at construction,
`get_user_metrics()` is the empty mapping even though the underlying
service's registry is nonempty. -/
theorem C5_witness :
    Services.DashboardService.get_user_metrics
        (Services.DashboardService.init ⟨[Aggregator.user ⟨[]⟩]⟩
          (some [Aggregator.event ⟨[]⟩]))
      = CollectResult.dict [] :=
  C5_dashboard_kind_lookup.1 ⟨[Aggregator.user ⟨[]⟩]⟩ [Aggregator.event ⟨[]⟩]
    (by decide)

/-- C6: constructing a DashboardService appends every supplied aggregator,
in order, onto the given analytics service's registry and changes nothing
else about it (the service state is exactly the old registry followed by
the supplied list), the local list is the supplied list, and
`get_summary_metrics()` returns exactly the (mutated) service's
`gather_metrics()`. -/
theorem C6_dashboard_init_registers (svc : Services.AnalyticsService)
    (aggs : List Aggregator) :
    (Services.DashboardService.init svc (some aggs)).analytics_service
        = ⟨svc.aggregators ++ aggs⟩ ∧
    (Services.DashboardService.init svc (some aggs)).aggregators = aggs ∧
    Services.DashboardService.get_summary_metrics
        (Services.DashboardService.init svc (some aggs))
      = Services.AnalyticsService.gather_metrics
          (Services.DashboardService.init svc (some aggs)).analytics_service := by
  refine ⟨?_, ?_, rfl⟩
  · simp [Services.DashboardService.init, listOrEmpty_some, Services.foldl_register]
  · simp [Services.DashboardService.init, listOrEmpty_some]

/-- C7: an EventAggregator's `collect()` is exactly the singleton mapping
from `total_events` to the length of its stored sequence; in particular
`EventAggregator()`, `EventAggregator([])` and a two-event construction
give 0, 0 and 2. -/
theorem C7_event_aggregator_collect :
    (∀ a : EventAggregator,
        a.collect = [(Value.str "total_events", Value.int a.events.length)]) ∧
    (∀ events : List Event,
        (EventAggregator.init (some events)).collect
          = [(Value.str "total_events", Value.int events.length)]) ∧
    ((EventAggregator.init Option.none).collect
        = [(Value.str "total_events", Value.int 0)]) ∧
    ((EventAggregator.init (some [])).collect
        = [(Value.str "total_events", Value.int 0)]) ∧
    (∀ e1 e2 : Event,
        (EventAggregator.init (some [e1, e2])).collect
          = [(Value.str "total_events", Value.int 2)]) := by
  refine ⟨fun a => rfl, ?_, rfl, rfl, ?_⟩
  · intro events
    simp [EventAggregator.init, EventAggregator.collect, listOrEmpty_some]
  · intro e1 e2
    simp [EventAggregator.init, EventAggregator.collect, listOrEmpty_some]

/-- C8: a UserAggregator's `collect()` is exactly the mapping with
`total_users` the stored length and `active_users` the number of stored
records with truthy `active`; a record missing `active` raises nothing
and counts as inactive, and the spec's three-user example gives
total 3 and active 2. -/
theorem C8_user_aggregator_collect :
    (∀ users : List User,
        (UserAggregator.init (some users)).collect
          = [(Value.str "total_users", Value.int users.length),
             (Value.str "active_users",
               Value.int (users.filter (fun u => u.active.truthy)).length)]) ∧
    (∀ users : List User,
        (UserAggregator.init (some (users ++ [{ active := Value.none }]))).collect
          = [(Value.str "total_users", Value.int (users.length + 1)),
             (Value.str "active_users",
               Value.int (users.filter (fun u => u.active.truthy)).length)]) ∧
    ((UserAggregator.init
        (some [⟨Value.pyTrue⟩, ⟨Value.pyFalse⟩, ⟨Value.pyTrue⟩])).collect
      = [(Value.str "total_users", Value.int 3),
         (Value.str "active_users", Value.int 2)]) := by
  refine ⟨?_, ?_, rfl⟩
  · intro users
    simp [UserAggregator.init, UserAggregator.collect, listOrEmpty_some]
  · intro users
    simp [UserAggregator.init, UserAggregator.collect, listOrEmpty_some,
      List.filter_append, Value.truthy]

/-- C9: whatever user list a UserAggregator stores, its `collect()` result
is a pair of non-negative integer counts with `active_users` at most
`total_users`. -/
theorem C9_user_counts_bounds (a : UserAggregator) :
    ∃ n k : Nat,
      a.collect = [(Value.str "total_users", Value.int n),
                   (Value.str "active_users", Value.int k)] ∧ k ≤ n := by
  refine ⟨a.users.length, (a.users.filter (fun u => u.active.truthy)).length, ?_, ?_⟩
  · rfl
  · exact List.length_filter_le _ _

/-- C10: the registry only changes by appending: `register_aggregator`
turns the state into exactly the old list with the one new aggregator at
the end (nothing else exists to change), and `gather_metrics` returns the
service state exactly as it was, whatever the aggregators do. -/
theorem C10_registry_frame :
    (∀ (s : Services.AnalyticsService) (a : Aggregator),
        Services.AnalyticsService.register_aggregator s a = ⟨s.aggregators ++ [a]⟩) ∧
    (∀ s : Services.AnalyticsService,
        (Services.AnalyticsService.gather_metricsS s).2 = s) := by
  constructor
  · intro s a
    rfl
  · intro s
    rw [Services.gather_metricsS_eq]
